import Mathlib

/-!
Verification of the scoring and leaderboard logic of the guess-that-rent
service.  The leaderboard read paths are embedded from `main.py`
(`get_week_scores`, `get_today_scores`), and the scoring pipeline from
`scripts/upsert_scores.py` (`calculate_model_scores`, `upsert_user`,
`create_score`, `main`).  Numeric rent values and guesses are modelled as
rationals, persisted scores as integers, and timestamps as integer instants
on a single timeline (seconds); Python `round` is modelled as exact
round-half-to-even on rationals.
-/

namespace GuessRent

/-- One persisted score row joined with its owner's username, as produced by
the queries in `main.py` (`db.query(Score, User.username).join(...)`).
`id` stands for the row's uuid; `created_at` is the timestamp as an integer
instant. -/
structure ScoreEvent where
  id : Nat
  username : String
  score_value : Int
  created_at : Int
deriving DecidableEq, Repr

/-- The hardcoded recognized-model list of `get_week_scores` in `main.py`:
`ai_models = ['Sonnet 4', 'Gemini 2.5 Flash', 'GPT 5']`. -/
def ai_models : List String := ["Sonnet 4", "Gemini 2.5 Flash", "GPT 5"]

/-- Character-list helper: `leadsWith n h` holds when `n` is an initial
segment of `h`. -/
def leadsWith : List Char → List Char → Bool
  | [], _ => true
  | _ :: _, [] => false
  | a :: as, b :: bs => a == b && leadsWith as bs

/-- Character-list helper: `hasSub n h` holds when `n` occurs contiguously
inside `h`. -/
def hasSub (needle : List Char) : List Char → Bool
  | [] => leadsWith needle []
  | b :: t => leadsWith needle (b :: t) || hasSub needle t

/-- Python's `needle in hay` substring test on strings. -/
def strContains (hay needle : String) : Bool := hasSub needle.data hay.data

/-- The classification test `any(model in username for model in ai_models)`
used by `get_week_scores` in `main.py`. -/
def isAI (username : String) : Bool := ai_models.any (fun m => strContains username m)

/-- Descending order on `score_value`, the order of
`order_by(Score.score_value.desc())` and of the final Python
`sort(key=lambda x: x['score_value'], reverse=True)`; both are modelled as a
stable insertion sort with this relation. -/
def scoreGe (a b : ScoreEvent) : Prop := b.score_value ≤ a.score_value

instance : DecidableRel scoreGe :=
  fun a b => inferInstanceAs (Decidable (b.score_value ≤ a.score_value))

instance : IsTotal ScoreEvent scoreGe := ⟨fun a b => le_total b.score_value a.score_value⟩

instance : IsTrans ScoreEvent scoreGe := ⟨fun _ _ _ h1 h2 => le_trans h2 h1⟩

/-- Stable descending sort by score value. -/
def sortByScoreDesc (l : List ScoreEvent) : List ScoreEvent := l.insertionSort scoreGe

/-- Descending order on `created_at`, the order of
`order_by(Score.created_at.desc())` in `get_today_scores`. -/
def createdGe (a b : ScoreEvent) : Prop := b.created_at ≤ a.created_at

instance : DecidableRel createdGe :=
  fun a b => inferInstanceAs (Decidable (b.created_at ≤ a.created_at))

instance : IsTotal ScoreEvent createdGe := ⟨fun a b => le_total b.created_at a.created_at⟩

instance : IsTrans ScoreEvent createdGe := ⟨fun _ _ _ h1 h2 => le_trans h2 h1⟩

/-- Stable descending sort by creation timestamp. -/
def sortByCreatedDesc (l : List ScoreEvent) : List ScoreEvent := l.insertionSort createdGe

/-- `datetime.timedelta(days=1)` in seconds. -/
def secondsPerDay : Int := 86400

/-- Embedding of `get_week_scores` (`main.py` lines 199-268).  The week
window is `[now - 7 days, now]`; `rows` is the windowed query sorted
descending by score (the source also splits off the windowed AI scores but
never uses them); the AI side is re-queried over all time, filtered by
`isAI`, and truncated to 3; the human side is the windowed non-AI rows
truncated to 3; the concatenation is re-sorted descending by score. -/
def get_week_scores (events : List ScoreEvent) (now : Int) : List ScoreEvent :=
  let week_start := now - 7 * secondsPerDay
  let rows := sortByScoreDesc
    (events.filter (fun e => decide (week_start ≤ e.created_at ∧ e.created_at ≤ now)))
  let human_scores := rows.filter (fun e => !isAI e.username)
  let all_ai_rows := sortByScoreDesc events
  let all_ai_scores := all_ai_rows.filter (fun e => isAI e.username)
  let top_ai_scores := all_ai_scores.take 3
  let top_human_scores := human_scores.take 3
  let combined_scores := top_ai_scores ++ top_human_scores
  sortByScoreDesc combined_scores

/-- The JSON payload returned by `/scores/week`:
`{"success": True, "count": len(combined_scores), "scores": combined_scores}`. -/
structure WeekResponse where
  success : Bool
  count : Nat
  scores : List ScoreEvent
deriving DecidableEq, Repr

/-- Embedding of the response construction of `get_week_scores`. -/
def get_week_response (events : List ScoreEvent) (now : Int) : WeekResponse :=
  { success := true
    count := (get_week_scores events now).length
    scores := get_week_scores events now }

/-- Embedding of `get_today_scores` (`main.py` lines 174-197).  The source
computes `dayStart` as midnight of the current day in US Eastern converted
to UTC; that boundary computation is abstracted into the `dayStart`
parameter, an instant on the same timeline as `created_at`.  The filter is
half-open: `created_at >= start_utc` and `created_at < end_utc`, and rows
are ordered by `created_at` descending with no limit. -/
def get_today_scores (events : List ScoreEvent) (dayStart : Int) : List ScoreEvent :=
  sortByCreatedDesc
    (events.filter (fun e =>
      decide (dayStart ≤ e.created_at ∧ e.created_at < dayStart + secondsPerDay)))

/-- The weekly composition stated from the spec's own words (§4.3), used
only for the refinement comparison with `get_week_scores`: select-all-time
AI events, sort descending, take 3; select windowed non-AI events, sort
descending, take 3; concatenate and re-sort descending. -/
def specWeeklyLeaderboard (events : List ScoreEvent) (now : Int) : List ScoreEvent :=
  let week_start := now - 7 * secondsPerDay
  let modelSel := (sortByScoreDesc (events.filter (fun e => isAI e.username))).take 3
  let humanSel := (sortByScoreDesc (events.filter (fun e =>
    !isAI e.username && decide (week_start ≤ e.created_at ∧ e.created_at ≤ now)))).take 3
  sortByScoreDesc (modelSel ++ humanSel)

/-- The worked weekly-leaderboard example of spec §8: five model events over
all time with scores `[95, 90, 88, 80, 70]` and five human events inside the
trailing week with scores `[99, 60, 55, 50, 40]`. -/
def exampleWeekEvents : List ScoreEvent :=
  [ ⟨0, "Sonnet 4", 95, 0⟩
  , ⟨1, "Gemini 2.5 Flash", 90, 1000⟩
  , ⟨2, "GPT 5", 88, 2000⟩
  , ⟨3, "Sonnet 4", 80, 3000⟩
  , ⟨4, "GPT 5", 70, 4000⟩
  , ⟨5, "alice", 99, 1209000⟩
  , ⟨6, "bob", 60, 1209100⟩
  , ⟨7, "carol", 55, 1209200⟩
  , ⟨8, "dave", 50, 1209300⟩
  , ⟨9, "erin", 40, 1209400⟩ ]

/-- The `now` instant used with `exampleWeekEvents`: two weeks into the
timeline, so the model events at instants `0..4000` lie outside the trailing
week and the human events at `1209000..1209400` lie inside it. -/
def exampleNow : Int := 1209600

/-- The per-listing error computation inlined in `calculate_model_scores`
(`upsert_scores.py` lines 107-116).  `none` stands for a missing field;
Python's falsiness test `not actual_rent or not model_guess or
model_guess == 0` skips the record when either value is missing or zero.
Otherwise the percentage error `abs(guess - actual) / actual * 100` is
produced with no rounding. -/
def computeError (actualRent guess : Option ℚ) : Option ℚ :=
  match actualRent, guess with
  | some a, some g => if a = 0 ∨ g = 0 then none else some (|g - a| / a * 100)
  | _, _ => none

/-- One Airtable record restricted to the two fields the scoring loop reads
for a fixed model column: `fields.get("Rent Price")` and
`fields.get(model_col)`. -/
structure PredictionRecord where
  rentPrice : Option ℚ
  guess : Option ℚ
deriving DecidableEq, Repr

/-- The `valid_errors` list accumulated by `calculate_model_scores` for one
model column, in record order. -/
def validErrors (records : List PredictionRecord) : List ℚ :=
  records.filterMap (fun r => computeError r.rentPrice r.guess)

/-- Python's `round(x)` on exact values: round half to even. -/
def roundHalfEven (q : ℚ) : ℤ :=
  if q - ⌊q⌋ < 1 / 2 then ⌊q⌋
  else if 1 / 2 < q - ⌊q⌋ then ⌊q⌋ + 1
  else if 2 ∣ ⌊q⌋ then ⌊q⌋ else ⌊q⌋ + 1

/-- Python's `round(x, 1)` on exact values: round to one decimal place, half
to even. -/
def round1 (q : ℚ) : ℚ := (roundHalfEven (q * 10) : ℚ) / 10

/-- The per-model aggregation step of `calculate_model_scores`
(`upsert_scores.py` lines 102-125): with no valid errors the model produces
no score; otherwise the stored value is `round(100 - avg_error, 1)`. -/
def aggregate (records : List PredictionRecord) : Option ℚ :=
  let errs := validErrors records
  if errs = [] then none
  else some (round1 (100 - errs.sum / (errs.length : ℚ)))

/-- The value persisted as the ScoreEvent's integer `score_value` for one
model: `accuracy_score = round(score)` in `main` (`upsert_scores.py` line
201) applied to the aggregation output. -/
def persistedScore (records : List PredictionRecord) : Option ℤ :=
  (aggregate records).map roundHalfEven

/-- A row of the `users` table; `id` stands for the uuid primary key. -/
structure UserRow where
  id : Nat
  username : String
deriving DecidableEq, Repr

/-- A row of the `score` table. -/
structure ScoreRow where
  user_id : Nat
  score_value : Int
deriving DecidableEq, Repr

/-- The relational store seen by `upsert_scores.py`: the two tables plus an
id supply standing for uuid generation. -/
structure DB where
  users : List UserRow
  scores : List ScoreRow
  nextId : Nat
deriving DecidableEq, Repr

/-- `db.query(User).filter(User.username == username).first()`. -/
def findUser (db : DB) (username : String) : Option UserRow :=
  db.users.find? (fun u => u.username == username)

/-- Embedding of `upsert_user` (`upsert_scores.py` lines 129-149).  The
`concurrent` argument holds a row inserted by another writer between this
session's initial SELECT and its INSERT commit; a commit whose username is
already present in the table raises `IntegrityError`
(the unique constraint on `users.username`), after which the source rolls
back, re-reads, and returns the existing row, re-raising (`none`) only if
the re-read also finds nothing. -/
def upsert_user (db : DB) (username : String) (concurrent : Option UserRow) :
    Option (UserRow × DB) :=
  match findUser db username with
  | some u => some (u, db)
  | none =>
    let db1 : DB :=
      match concurrent with
      | some c => { db with users := db.users ++ [c], nextId := max db.nextId (c.id + 1) }
      | none => db
    if db1.users.any (fun u => u.username == username) then
      match findUser db1 username with
      | some u => some (u, db1)
      | none => none
    else
      let u : UserRow := ⟨db1.nextId, username⟩
      some (u, { db1 with users := db1.users ++ [u], nextId := db1.nextId + 1 })

/-- Embedding of `create_score` (`upsert_scores.py` lines 151-158): a plain
INSERT of a new score row, never an update. -/
def create_score (db : DB) (user_id : Nat) (score_value : Int) : DB :=
  { db with scores := db.scores ++ [⟨user_id, score_value⟩] }

/-- One iteration of the persistence loop of `main` (`upsert_scores.py`
lines 194-202) for one `(model_name, accuracy_score)` pair, run without
concurrent writers. -/
def processModel (db : DB) (m : String × Int) : Option DB :=
  (upsert_user db m.1 none).map (fun p => create_score p.2 p.1.id m.2)

/-- The persistence loop of `main` over the computed `model_scores` items,
threading the database state; `none` would mean an uncaught re-raise inside
`upsert_user`. -/
def runPipeline (ms : List (String × Int)) (db : DB) : Option DB :=
  ms.foldl (fun acc m => acc.bind (fun db => processModel db m)) (some db)

/-- Evaluation rule for `roundHalfEven` once the floor of the argument is
known. -/
theorem roundHalfEven_eq (q : ℚ) (n : ℤ) (hf : ⌊q⌋ = n) :
    roundHalfEven q =
      if q - n < 1 / 2 then n
      else if 1 / 2 < q - n then n + 1
      else if 2 ∣ n then n else n + 1 := by
  rw [roundHalfEven, hf]

/-- Concrete evaluation: the error of guessing 120 against an actual rent of
100 is 20 percent. -/
theorem computeError_100_120 : computeError (some 100) (some 120) = some 20 := by
  simp only [computeError]
  norm_num [abs_of_nonneg]

/-- Concrete evaluation: the error of guessing 100 against an actual rent of
120 is 50/3 ≈ 16.67 percent. -/
theorem computeError_120_100 : computeError (some 120) (some 100) = some (50 / 3) := by
  simp only [computeError]
  norm_num [abs_of_nonpos]

/-- Concrete evaluation of the errors of the spec's aggregation example. -/
theorem validErrors_pair :
    validErrors [⟨some 1000, some 1100⟩, ⟨some 2000, some 1800⟩] = [10, 10] := by
  norm_num [validErrors, List.filterMap_cons, List.filterMap_nil, computeError,
    abs_of_nonneg, abs_of_nonpos]

/-- Concrete evaluation of the spec's aggregation example. -/
theorem aggregate_pair :
    aggregate [⟨some 1000, some 1100⟩, ⟨some 2000, some 1800⟩] = some 90 := by
  rw [aggregate, validErrors_pair]
  norm_num
  refine ⟨by simp, ?_⟩
  rw [round1, roundHalfEven_eq (90 * 10) 900 (by norm_num [Int.floor_eq_iff])]
  norm_num

/-- Concrete evaluation: one valid error of 98.53 percent. -/
theorem validErrors_single53 :
    validErrors [⟨some 100, some (19853 / 100)⟩] = [9853 / 100] := by
  norm_num [validErrors, List.filterMap_cons, List.filterMap_nil, computeError,
    abs_of_nonneg]

/-- Concrete evaluation: a raw accuracy score of 1.47 is stored as 1.5 by
the aggregation step. -/
theorem aggregate_single53 : aggregate [⟨some 100, some (19853 / 100)⟩] = some (3 / 2) := by
  rw [aggregate, validErrors_single53]
  norm_num
  rw [round1, roundHalfEven_eq (147 / 100 * 10) 14 (by norm_num [Int.floor_eq_iff])]
  norm_num

/-- Concrete evaluation: one valid error of 98.54 percent. -/
theorem validErrors_single54 :
    validErrors [⟨some 100, some (19854 / 100)⟩] = [9854 / 100] := by
  norm_num [validErrors, List.filterMap_cons, List.filterMap_nil, computeError,
    abs_of_nonneg]

/-- Concrete evaluation: a raw accuracy score of 1.46 is stored as 1.5 by
the aggregation step. -/
theorem aggregate_single54 : aggregate [⟨some 100, some (19854 / 100)⟩] = some (3 / 2) := by
  rw [aggregate, validErrors_single54]
  norm_num
  rw [round1, roundHalfEven_eq (73 / 50 * 10) 14 (by norm_num [Int.floor_eq_iff])]
  norm_num

/-- Concrete evaluation: the 1.5 produced for a raw score of 1.46 is then
persisted as the integer 2. -/
theorem persistedScore_single54 : persistedScore [⟨some 100, some (19854 / 100)⟩] = some 2 := by
  rw [persistedScore, aggregate_single54]
  simp only [Option.map_some']
  rw [roundHalfEven_eq (3 / 2) 1 (by norm_num [Int.floor_eq_iff])]
  norm_num

/-- Inserting an element that precedes every member of a list prepends it. -/
theorem orderedInsert_eq_cons {α : Type} {r : α → α → Prop} [DecidableRel r] (a : α)
    (l : List α) (h : ∀ c ∈ l, r a c) : l.orderedInsert r a = a :: l := by
  cases l with
  | nil => rfl
  | cons b t => exact List.orderedInsert_of_le r t (h b (List.mem_cons_self b t))

/-- Ordered insertion walks past a head that the new element does not
precede. -/
theorem orderedInsert_cons_of_not {α : Type} {r : α → α → Prop} [DecidableRel r] (a b : α)
    (l : List α) (h : ¬r a b) : (b :: l).orderedInsert r a = b :: l.orderedInsert r a := by
  simp [List.orderedInsert, h]

/-- Filtering commutes with ordered insertion into a sorted list. -/
theorem filter_orderedInsert {α : Type} {r : α → α → Prop} [DecidableRel r] [IsTrans α r]
    (p : α → Bool) (a : α) :
    ∀ l : List α, l.Sorted r →
      (l.orderedInsert r a).filter p =
        if p a then (l.filter p).orderedInsert r a else l.filter p := by
  intro l
  induction l with
  | nil =>
    intro _
    by_cases hp : p a <;> simp [hp]
  | cons b l ih =>
    intro hl
    rcases List.sorted_cons.mp hl with ⟨hb, hl'⟩
    by_cases hr : r a b
    · rw [List.orderedInsert_of_le r l hr]
      by_cases hp : p a
      · rw [if_pos hp, List.filter_cons_of_pos hp]
        refine (orderedInsert_eq_cons a _ ?_).symm
        intro c hc
        rcases List.mem_cons.mp (List.mem_of_mem_filter hc) with h1 | h2
        · rw [h1]; exact hr
        · exact IsTrans.trans a b c hr (hb c h2)
      · rw [if_neg hp, List.filter_cons_of_neg hp]
    · rw [orderedInsert_cons_of_not a b l hr]
      by_cases hpb : p b
      · rw [List.filter_cons_of_pos hpb, ih hl', List.filter_cons_of_pos hpb]
        by_cases hp : p a
        · rw [if_pos hp, if_pos hp, orderedInsert_cons_of_not a b (l.filter p) hr]
        · rw [if_neg hp, if_neg hp]
      · rw [List.filter_cons_of_neg hpb, ih hl', List.filter_cons_of_neg hpb]

/-- Filtering commutes with a stable insertion sort. -/
theorem filter_insertionSort {α : Type} {r : α → α → Prop} [DecidableRel r]
    [IsTotal α r] [IsTrans α r] (p : α → Bool) (l : List α) :
    (l.insertionSort r).filter p = (l.filter p).insertionSort r := by
  induction l with
  | nil => rfl
  | cons b l ih =>
    rw [List.insertionSort,
      filter_orderedInsert p b (l.insertionSort r) (List.sorted_insertionSort r l)]
    by_cases hp : p b
    · rw [if_pos hp, ih, List.filter_cons_of_pos hp, List.insertionSort]
    · rw [if_neg hp, ih, List.filter_cons_of_neg hp]

/-- C1: the weekly leaderboard takes the top three all-time model events by
score, the top three trailing-week human events by score, and re-sorts their
concatenation descending by score; on the spec's worked example the output
scores are exactly `[99, 95, 90, 88, 60, 55]`. -/
theorem weekly_leaderboard_composition :
    (∀ (events : List ScoreEvent) (now : Int),
        get_week_scores events now = specWeeklyLeaderboard events now) ∧
      (get_week_scores exampleWeekEvents exampleNow).map (fun e => e.score_value) =
        [99, 95, 90, 88, 60, 55] := by
  constructor
  · intro events now
    unfold get_week_scores specWeeklyLeaderboard sortByScoreDesc
    dsimp only
    rw [filter_insertionSort, filter_insertionSort, List.filter_filter]
  · decide

/-- C2: the error calculator skips exactly the missing-or-zero inputs;
otherwise it returns `|guess - actualRent| / actualRent * 100`, which is
non-negative for positive rents and unbounded above, with
`computeError 100 120 = 20` but `computeError 120 100 = 50/3`, so the
function is not symmetric in its two arguments. -/
theorem computeError_contract :
    (∀ a g : Option ℚ, computeError a g = none ↔
        a = none ∨ a = some 0 ∨ g = none ∨ g = some 0) ∧
      (∀ a g : ℚ, a ≠ 0 → g ≠ 0 →
        computeError (some a) (some g) = some (|g - a| / a * 100)) ∧
      (∀ a g x : ℚ, 0 < a → computeError (some a) (some g) = some x → 0 ≤ x) ∧
      (∀ B : ℚ, ∃ a g x : ℚ, computeError (some a) (some g) = some x ∧ B < x) ∧
      computeError (some 100) (some 120) = some 20 ∧
      computeError (some 120) (some 100) = some (50 / 3) ∧
      computeError (some 100) (some 120) ≠ computeError (some 120) (some 100) := by
  have hval : ∀ a g : ℚ, a ≠ 0 → g ≠ 0 →
      computeError (some a) (some g) = some (|g - a| / a * 100) := by
    intro a g ha hg
    simp [computeError, ha, hg]
  refine ⟨?_, hval, ?_, ?_, computeError_100_120, computeError_120_100, ?_⟩
  · intro a g
    cases a with
    | none => simp [computeError]
    | some a =>
      cases g with
      | none => simp [computeError]
      | some g =>
        by_cases h : a = 0 ∨ g = 0
        · simp only [computeError, if_pos h]
          simp only [Option.some.injEq]
          tauto
        · simp only [computeError, if_neg h]
          simp only [Option.some.injEq]
          tauto
  · intro a g x ha h
    by_cases hc : a = 0 ∨ g = 0
    · simp [computeError, hc] at h
    · simp only [computeError, if_neg hc, Option.some.injEq] at h
      rw [← h]
      exact mul_nonneg (div_nonneg (abs_nonneg _) (le_of_lt ha)) (by norm_num)
  · intro B
    have hg : (|B| + 2 : ℚ) ≠ 0 := by positivity
    refine ⟨1, |B| + 2, |(|B| + 2) - 1| / 1 * 100, hval 1 (|B| + 2) one_ne_zero hg, ?_⟩
    have harg : (|B| + 2 : ℚ) - 1 = |B| + 1 := by ring
    rw [harg, abs_of_nonneg (by positivity)]
    have hx : (|B| + 1 : ℚ) / 1 * 100 = 100 * |B| + 100 := by ring
    rw [hx]
    have h1 := le_abs_self B
    have h2 := abs_nonneg B
    linarith
  · rw [computeError_100_120, computeError_120_100]
    simp only [ne_eq, Option.some.injEq]
    norm_num

/-- Closed instance of `computeError_contract` at a concrete input. -/
theorem computeError_contract_witness :
    computeError (some 100) (some 120) = some (|120 - 100| / 100 * 100) :=
  computeError_contract.2.1 100 120 (by norm_num) (by norm_num)

/-- C6: an event whose username matches no recognized model identifier and
whose creation instant precedes `now` minus seven days never appears in the
weekly leaderboard, whatever its score. -/
theorem old_human_event_excluded (events : List ScoreEvent) (now : Int) (e : ScoreEvent)
    (hAI : isAI e.username = false) (hOld : e.created_at < now - 7 * secondsPerDay) :
    e ∉ get_week_scores events now := by
  intro hmem
  unfold get_week_scores at hmem
  dsimp only at hmem
  have hmem' := (List.perm_insertionSort scoreGe _).mem_iff.mp hmem
  rcases List.mem_append.mp hmem' with hA | hH
  · have h1 := List.take_subset 3 _ hA
    have h2 := List.of_mem_filter h1
    rw [hAI] at h2
    exact Bool.false_ne_true h2
  · have h1 := List.take_subset 3 _ hH
    have h2 := List.mem_of_mem_filter h1
    have h3 := (List.perm_insertionSort scoreGe _).mem_iff.mp h2
    have h4 := List.of_mem_filter h3
    have h5 := of_decide_eq_true h4
    linarith [h5.1]

/-- Closed instance of `old_human_event_excluded`: a high-scoring human
event eight days old is absent from the weekly leaderboard. -/
theorem old_human_event_excluded_witness :
    (⟨10, "zoe", 1000, 518200⟩ : ScoreEvent) ∉
      get_week_scores (exampleWeekEvents ++ [⟨10, "zoe", 1000, 518200⟩]) exampleNow :=
  old_human_event_excluded _ exampleNow _ (by decide) (by decide)

/-- C7: the daily leaderboard consists of exactly the events of the
half-open day window, with no model/human split and no limit, ordered
descending by creation timestamp rather than by score. -/
theorem daily_leaderboard_contract (events : List ScoreEvent) (dayStart : Int) :
    (∀ e : ScoreEvent, e ∈ get_today_scores events dayStart ↔
        e ∈ events ∧ dayStart ≤ e.created_at ∧ e.created_at < dayStart + secondsPerDay) ∧
      (get_today_scores events dayStart).Perm
        (events.filter (fun e =>
          decide (dayStart ≤ e.created_at ∧ e.created_at < dayStart + secondsPerDay))) ∧
      (get_today_scores events dayStart).Sorted createdGe := by
  refine ⟨?_, ?_, ?_⟩
  · intro e
    unfold get_today_scores sortByCreatedDesc
    rw [(List.perm_insertionSort createdGe _).mem_iff, List.mem_filter]
    simp only [decide_eq_true_eq]
  · unfold get_today_scores sortByCreatedDesc
    exact List.perm_insertionSort createdGe _
  · unfold get_today_scores sortByCreatedDesc
    exact List.sorted_insertionSort createdGe _

/-- Half-to-even rounding is a nearest-integer rounding: it moves its
argument by at most one half. -/
theorem abs_sub_roundHalfEven_le (q : ℚ) : |q - (roundHalfEven q : ℚ)| ≤ 1 / 2 := by
  have h1 : (⌊q⌋ : ℚ) ≤ q := Int.floor_le q
  have h2 : q < ⌊q⌋ + 1 := Int.lt_floor_add_one q
  rw [roundHalfEven]
  by_cases hc1 : q - ⌊q⌋ < 1 / 2
  · rw [if_pos hc1, abs_of_nonneg (by linarith)]
    linarith
  · rw [if_neg hc1]
    have hge : 1 / 2 ≤ q - ⌊q⌋ := not_lt.mp hc1
    by_cases hc2 : 1 / 2 < q - ⌊q⌋
    · rw [if_pos hc2, abs_of_nonpos (by push_cast; linarith)]
      push_cast
      linarith
    · have heq : q - ⌊q⌋ = 1 / 2 := le_antisymm (not_lt.mp hc2) hge
      rw [if_neg hc2]
      by_cases hc3 : 2 ∣ ⌊q⌋
      · rw [if_pos hc3, abs_of_nonneg (by linarith)]
        linarith
      · rw [if_neg hc3, abs_of_nonpos (by push_cast; linarith)]
        push_cast
        linarith

/-- C3 counterexample: for the single record (rent 100, guess 198.53) the
aggregator stores 1.5, not the exact `100 - mean(validErrors) = 1.47`, so
the aggregator's output is not `100 - mean(validErrors)` in general. -/
theorem aggregate_not_exact_mean :
    aggregate [⟨some 100, some (19853 / 100)⟩] = some (3 / 2) ∧
      100 - (validErrors [⟨some 100, some (19853 / 100)⟩]).sum /
          ((validErrors [⟨some 100, some (19853 / 100)⟩]).length : ℚ) = 147 / 100 ∧
      (3 / 2 : ℚ) ≠ 147 / 100 := by
  refine ⟨aggregate_single53, ?_, by norm_num⟩
  rw [validErrors_single53]
  norm_num

/-- C3 amended: all-skipped inputs produce no score; otherwise the
aggregator produces `100 - mean(validErrors)` rounded to one decimal place
(half to even); on the spec's example the errors are `[10, 10]` and the
score is 90; no clamping is applied, so the stored score can be negative. -/
theorem aggregate_contract :
    (∀ records : List PredictionRecord, aggregate records = none ↔ validErrors records = []) ∧
      (∀ records : List PredictionRecord, validErrors records ≠ [] →
        aggregate records =
          some (round1 (100 - (validErrors records).sum / ((validErrors records).length : ℚ)))) ∧
      validErrors [⟨some 1000, some 1100⟩, ⟨some 2000, some 1800⟩] = [10, 10] ∧
      aggregate [⟨some 1000, some 1100⟩, ⟨some 2000, some 1800⟩] = some 90 ∧
      (∃ (records : List PredictionRecord) (v : ℚ), aggregate records = some v ∧ v < 0) := by
  refine ⟨?_, ?_, validErrors_pair, aggregate_pair, ?_⟩
  · intro records
    rw [aggregate]
    by_cases h : validErrors records = []
    · simp [h]
    · simp [h]
  · intro records h
    rw [aggregate]
    simp [h]
  · refine ⟨[⟨some 100, some 400⟩], -200, ?_, by norm_num⟩
    have hv : validErrors [⟨some 100, some 400⟩] = [300] := by
      norm_num [validErrors, List.filterMap_cons, List.filterMap_nil, computeError,
        abs_of_nonneg]
    rw [aggregate, hv]
    norm_num
    rw [round1, roundHalfEven_eq (-200 * 10) (-2000) (by norm_num [Int.floor_eq_iff])]
    norm_num

/-- Closed instance of `aggregate_contract` at the spec's example input. -/
theorem aggregate_contract_witness :
    aggregate [⟨some 1000, some 1100⟩, ⟨some 2000, some 1800⟩] =
      some (round1 (100 -
        (validErrors [⟨some 1000, some 1100⟩, ⟨some 2000, some 1800⟩]).sum /
          ((validErrors [⟨some 1000, some 1100⟩, ⟨some 2000, some 1800⟩]).length : ℚ))) :=
  aggregate_contract.2.1 _ (by rw [validErrors_pair]; simp)

/-- C4 counterexample: for the single record (rent 100, guess 198.54) the
exact accuracy score is 1.46, whose nearest integer is 1, but the persisted
value is 2, because the one-decimal rounding applied inside aggregation
feeds persistence. -/
theorem persisted_not_round_of_exact :
    persistedScore [⟨some 100, some (19854 / 100)⟩] = some 2 ∧
      roundHalfEven (100 - (validErrors [⟨some 100, some (19854 / 100)⟩]).sum /
        ((validErrors [⟨some 100, some (19854 / 100)⟩]).length : ℚ)) = 1 ∧
      (2 : ℤ) ≠ 1 := by
  refine ⟨persistedScore_single54, ?_, by norm_num⟩
  rw [validErrors_single54]
  norm_num
  rw [roundHalfEven_eq (73 / 50) 1 (by norm_num [Int.floor_eq_iff])]
  norm_num

/-- C4 amended: the persisted integer is the half-to-even rounding of the
aggregator's one-decimal-rounded output (not of the exact accuracy score),
and it lies within one half of that output. -/
theorem persisted_rounds_aggregate (records : List PredictionRecord) (s : ℚ)
    (h : aggregate records = some s) :
    persistedScore records = some (roundHalfEven s) ∧
      |s - (roundHalfEven s : ℚ)| ≤ 1 / 2 := by
  constructor
  · rw [persistedScore, h, Option.map_some']
  · exact abs_sub_roundHalfEven_le s

/-- Closed instance of `persisted_rounds_aggregate` at the spec's example
input. -/
theorem persisted_rounds_aggregate_witness :
    persistedScore [⟨some 1000, some 1100⟩, ⟨some 2000, some 1800⟩] =
      some (roundHalfEven 90) ∧
      |(90 : ℚ) - (roundHalfEven 90 : ℚ)| ≤ 1 / 2 :=
  persisted_rounds_aggregate _ 90 aggregate_pair

/-- C5: the aggregation result, and hence the persisted integer, depends
only on the multiset of prediction records, not on their order. -/
theorem aggregate_perm_invariant (l₁ l₂ : List PredictionRecord) (h : l₁.Perm l₂) :
    aggregate l₁ = aggregate l₂ ∧ persistedScore l₁ = persistedScore l₂ := by
  have hperm : (validErrors l₁).Perm (validErrors l₂) := h.filterMap _
  have hsum : (validErrors l₁).sum = (validErrors l₂).sum := hperm.sum_eq
  have hlen : (validErrors l₁).length = (validErrors l₂).length := hperm.length_eq
  have hnil : validErrors l₁ = [] ↔ validErrors l₂ = [] := by
    rw [← List.length_eq_zero, ← List.length_eq_zero, hlen]
  have hagg : aggregate l₁ = aggregate l₂ := by
    rw [aggregate, aggregate]
    by_cases h1 : validErrors l₁ = []
    · rw [if_pos h1, if_pos (hnil.mp h1)]
    · rw [if_neg h1, if_neg (fun hc => h1 (hnil.mpr hc)), hsum, hlen]
  exact ⟨hagg, by rw [persistedScore, persistedScore, hagg]⟩

/-- Closed instance of `aggregate_perm_invariant`: swapping the two records
of the spec's example leaves the aggregate unchanged. -/
theorem aggregate_perm_invariant_witness :
    aggregate [⟨some 1000, some 1100⟩, ⟨some 2000, some 1800⟩] =
      aggregate [⟨some 2000, some 1800⟩, ⟨some 1000, some 1100⟩] :=
  (aggregate_perm_invariant _ _ (List.Perm.swap _ _ _)).1

/-- Without concurrent writers `upsert_user` always succeeds and leaves the
score table untouched. -/
theorem upsert_user_none_total (db : DB) (username : String) :
    ∃ (u : UserRow) (db₂ : DB), upsert_user db username none = some (u, db₂) ∧
      db₂.scores = db.scores := by
  cases hf : findUser db username with
  | some u => exact ⟨u, db, by rw [upsert_user, hf], rfl⟩
  | none =>
    have hany : db.users.any (fun u => u.username == username) = false := by
      rw [List.any_eq_false]
      intro u hu
      have hne := List.find?_eq_none.mp hf u hu
      simpa using hne
    refine ⟨⟨db.nextId, username⟩, { db with users := db.users ++ [⟨db.nextId, username⟩], nextId := db.nextId + 1 }, ?_, rfl⟩
    rw [upsert_user, hf]
    dsimp only
    rw [if_neg (by simp [hany])]

/-- One pipeline iteration appends exactly one score row carrying the
model's computed value. -/
theorem processModel_spec (db : DB) (m : String × Int) :
    ∃ (uid : Nat) (db₂ : DB), processModel db m = some db₂ ∧
      db₂.scores = db.scores ++ [⟨uid, m.2⟩] := by
  obtain ⟨u, dbU, hup, hsc⟩ := upsert_user_none_total db m.1
  refine ⟨u.id, create_score dbU u.id m.2, ?_, ?_⟩
  · rw [processModel, hup, Option.map_some']
  · simp [create_score, hsc]

/-- The pipeline run succeeds and appends one batch of score rows, one per
model in order, without touching existing rows. -/
theorem runPipeline_spec :
    ∀ (ms : List (String × Int)) (db : DB), ∃ (db' : DB) (batch : List ScoreRow),
      runPipeline ms db = some db' ∧ db'.scores = db.scores ++ batch ∧
      batch.map (fun s => s.score_value) = ms.map (fun m => m.2)
  | [], db => ⟨db, [], rfl, by simp, rfl⟩
  | m :: ms, db => by
    obtain ⟨uid, db₂, hpm, hs⟩ := processModel_spec db m
    obtain ⟨db', batch, hrun, hsc, hmap⟩ := runPipeline_spec ms db₂
    refine ⟨db', ⟨uid, m.2⟩ :: batch, ?_, ?_, ?_⟩
    · show runPipeline (m :: ms) db = some db'
      rw [runPipeline, List.foldl_cons]
      simp only [Option.some_bind]
      rw [hpm]
      exact hrun
    · rw [hsc, hs, List.append_assoc, List.singleton_append]
    · simp [hmap]

/-- C8: recording scores is append-only — a pipeline run leaves every
previously stored score row in place and appends one new row per model with
the computed value; a second identical run appends a second batch with the
same score values, leaving the first batch intact. -/
theorem pipeline_append_only (ms : List (String × Int)) (db : DB) :
    ∃ (db' db'' : DB) (b1 b2 : List ScoreRow),
      runPipeline ms db = some db' ∧
      runPipeline ms db' = some db'' ∧
      db'.scores = db.scores ++ b1 ∧
      db''.scores = db'.scores ++ b2 ∧
      b1.map (fun s => s.score_value) = ms.map (fun m => m.2) ∧
      b2.map (fun s => s.score_value) = ms.map (fun m => m.2) ∧
      b1.length = ms.length ∧ b2.length = ms.length := by
  obtain ⟨db', b1, h1, h2, h3⟩ := runPipeline_spec ms db
  obtain ⟨db'', b2, h4, h5, h6⟩ := runPipeline_spec ms db'
  refine ⟨db', db'', b1, b2, h1, h4, h2, h5, h3, h6, ?_, ?_⟩
  · have := congrArg List.length h3
    simpa using this
  · have := congrArg List.length h6
    simpa using this

/-- C9: when another writer has already inserted the username between the
initial read and the commit, the unique-constraint violation is recovered:
`upsert_user` returns the existing participant without failing, the
database is otherwise unchanged, and a subsequent `create_score` attaches
the score to that existing participant. -/
theorem collision_recovered (db : DB) (username : String) (c : UserRow) (v : Int)
    (hfree : ∀ u ∈ db.users, u.username ≠ username) (hc : c.username = username) :
    ∃ db' : DB, upsert_user db username (some c) = some (c, db') ∧
      c ∈ db'.users ∧ db'.scores = db.scores ∧
      (create_score db' c.id v).scores = db.scores ++ [⟨c.id, v⟩] := by
  have hf : findUser db username = none := by
    rw [findUser, List.find?_eq_none]
    intro u hu
    simpa using hfree u hu
  have hmem : c ∈ db.users ++ [c] := List.mem_append_right _ (List.mem_singleton.mpr rfl)
  have hany : (db.users ++ [c]).any (fun u => u.username == username) = true := by
    rw [List.any_eq_true]
    exact ⟨c, hmem, by simp [hc]⟩
  have hfind : findUser { db with users := db.users ++ [c], nextId := max db.nextId (c.id + 1) } username = some c := by
    rw [findUser]
    dsimp only
    rw [List.find?_append]
    have h0 : db.users.find? (fun u => u.username == username) = none := hf
    rw [h0]
    simp [hc]
  refine ⟨{ db with users := db.users ++ [c], nextId := max db.nextId (c.id + 1) }, ?_, hmem, rfl, rfl⟩
  rw [upsert_user, hf]
  dsimp only
  rw [if_pos (by simpa using hany), hfind]

/-- Closed instance of `collision_recovered` on an empty store with a
concurrently created "Sonnet 4" participant. -/
theorem collision_recovered_witness :
    ∃ db' : DB, upsert_user ⟨[], [], 0⟩ "Sonnet 4" (some ⟨7, "Sonnet 4"⟩) =
        some (⟨7, "Sonnet 4"⟩, db') ∧
      (⟨7, "Sonnet 4"⟩ : UserRow) ∈ db'.users ∧ db'.scores = [] ∧
      (create_score db' 7 95).scores = [] ++ [⟨7, 95⟩] :=
  collision_recovered ⟨[], [], 0⟩ "Sonnet 4" ⟨7, "Sonnet 4"⟩ 95 (by simp) rfl

/-- The stable sort is a permutation of its input. -/
theorem sortByScoreDesc_perm (l : List ScoreEvent) : (sortByScoreDesc l).Perm l :=
  List.perm_insertionSort scoreGe l

/-- C10: the weekly leaderboard response reports a count equal to the
number of entries returned, the list never exceeds six entries, and —
because every event is classified into exactly one of the model or human
populations — a duplicate-free event table yields a duplicate-free
leaderboard. -/
theorem weekly_response_invariants (events : List ScoreEvent) (now : Int) :
    (get_week_response events now).count = (get_week_response events now).scores.length ∧
      (get_week_scores events now).length ≤ 6 ∧
      (events.Nodup → (get_week_scores events now).Nodup) := by
  refine ⟨rfl, ?_, ?_⟩
  · unfold get_week_scores
    dsimp only
    rw [(sortByScoreDesc_perm _).length_eq, List.length_append]
    have h1 := List.length_take_le 3
      ((sortByScoreDesc events).filter (fun e => isAI e.username))
    have h2 := List.length_take_le 3
      ((sortByScoreDesc (events.filter (fun e =>
        decide (now - 7 * secondsPerDay ≤ e.created_at ∧ e.created_at ≤ now)))).filter
        (fun e => !isAI e.username))
    omega
  · intro hN
    unfold get_week_scores
    dsimp only
    rw [(sortByScoreDesc_perm _).nodup_iff]
    have hAI : (((sortByScoreDesc events).filter (fun e => isAI e.username)).take 3).Nodup :=
      List.Nodup.sublist (List.take_sublist 3 _)
        (List.Nodup.filter _ ((sortByScoreDesc_perm events).nodup_iff.mpr hN))
    have hHu : (((sortByScoreDesc (events.filter (fun e =>
        decide (now - 7 * secondsPerDay ≤ e.created_at ∧ e.created_at ≤ now)))).filter
          (fun e => !isAI e.username)).take 3).Nodup :=
      List.Nodup.sublist (List.take_sublist 3 _)
        (List.Nodup.filter _
          ((sortByScoreDesc_perm _).nodup_iff.mpr (List.Nodup.filter _ hN)))
    refine List.Nodup.append hAI hHu ?_
    intro e heA heH
    have h1 := List.of_mem_filter (List.take_subset 3 _ heA)
    have h2 := List.of_mem_filter (List.take_subset 3 _ heH)
    rw [h1] at h2
    simp at h2

/-- Closed instance of `weekly_response_invariants`: the worked example's
event table has no duplicate rows, hence neither does its weekly
leaderboard. -/
theorem weekly_response_invariants_witness :
    (get_week_scores exampleWeekEvents exampleNow).Nodup :=
  (weekly_response_invariants exampleWeekEvents exampleNow).2.2 (by decide)

end GuessRent
